import Mathlib

/-!
Verification of the seq2seq decoding engine
(`speechbrain/decoders/seq2seq.py`): greedy search (`S2SGreedySearcher`)
and beam search (`S2SBeamSearcher`).

Scores are modelled exactly: an extended value type `Ext` with minus
infinity, plus infinity and finite rationals stands for the float scores
(`float("-inf")`, `float("inf")` and finite values), and all arithmetic is
exact rational arithmetic.  Tensors are modelled as lists (row-major), and
`view`/`reshape` as index arithmetic on flat positions.  The model itself
(`forward_step`) and its memory are opaque collaborators and are
parameters of the driver embeddings.
-/

set_option allowUnsafeReducibility true
attribute [local semireducible] Rat.add Rat.mul Rat.div Rat.sub Rat.neg Rat.inv

namespace Seq2Seq

/-- Extended score value: minus infinity, a finite rational, or plus
infinity.  Mirrors the float score values used by the decoders. -/
inductive Ext where
  | ninf : Ext
  | fin : ℚ → Ext
  | pinf : Ext
deriving DecidableEq

/-- Strict comparison on extended scores. -/
def Ext.ltb : Ext → Ext → Bool
  | Ext.ninf, Ext.ninf => false
  | Ext.ninf, _ => true
  | Ext.fin _, Ext.ninf => false
  | Ext.fin a, Ext.fin b => decide (a < b)
  | Ext.fin _, Ext.pinf => true
  | Ext.pinf, _ => false

/-- Addition of extended scores (minus infinity absorbs; `pinf + fin`
never occurs in the beam path but is defined totally). -/
def Ext.add : Ext → Ext → Ext
  | Ext.ninf, _ => Ext.ninf
  | _, Ext.ninf => Ext.ninf
  | Ext.fin a, Ext.fin b => Ext.fin (a + b)
  | Ext.pinf, _ => Ext.pinf
  | Ext.fin _, Ext.pinf => Ext.pinf

/-- Division of an extended score by a natural number (used by length
normalization, `scores / (step + 1)`). -/
def Ext.divNat : Ext → Nat → Ext
  | Ext.ninf, _ => Ext.ninf
  | Ext.pinf, _ => Ext.pinf
  | Ext.fin a, n => Ext.fin (a / (n : ℚ))

/-- Multiplication of an extended score by a natural number (used to
recover the length normalization, `scores * (step + 1)`). -/
def Ext.mulNat : Ext → Nat → Ext
  | Ext.ninf, _ => Ext.ninf
  | Ext.pinf, _ => Ext.pinf
  | Ext.fin a, n => Ext.fin (a * (n : ℚ))

/-- First index of a maximal element of a rational list, scanning left to
right (`torch.argmax` / the index returned by `torch.max(dim)`). -/
def argmaxAux : List ℚ → Nat → Nat → ℚ → Nat
  | [], _, bi, _ => bi
  | x :: xs, i, bi, bv =>
    if bv < x then argmaxAux xs (i + 1) i x else argmaxAux xs (i + 1) bi bv

/-- First index of a maximal element (`torch.argmax`); 0 on the empty
list. -/
def argmaxFirst : List ℚ → Nat
  | [] => 0
  | x :: xs => argmaxAux xs 1 0 x

/-- Maximum of a rational list (`torch.max(dim=-1)` values); 0 on the
empty list (torch errors there, the case never occurs). -/
def rowMax : List ℚ → ℚ
  | [] => 0
  | x :: xs => xs.foldl max x

/-- Maximum of a list of extended scores. -/
def extRowMax : List Ext → Ext
  | [] => Ext.ninf
  | x :: xs => xs.foldl (fun a b => if Ext.ltb a b then b else a) x

/-- First index of a maximal element of a list of extended scores. -/
def extArgmaxAux : List Ext → Nat → Nat → Ext → Nat
  | [], _, bi, _ => bi
  | x :: xs, i, bi, bv =>
    if Ext.ltb bv x then extArgmaxAux xs (i + 1) i x
    else extArgmaxAux xs (i + 1) bi bv

/-- First index of a maximal element of a list of extended scores. -/
def extArgmaxFirst : List Ext → Nat
  | [] => 0
  | x :: xs => extArgmaxAux xs 1 0 x

/-- Modelled from the spec: `mask_by_condition` from
`speechbrain.decoders.utils` (not vendored under src/) applied to one
scalar: where the condition holds the value is kept, otherwise it is
replaced by the fill value ("the end-token's log-probability is masked to
the negative sentinel"). -/
def maskValByCondition (x : ℚ) (cond : Bool) (fill : ℚ) : ℚ :=
  if cond then x else fill

/-- Modelled from the spec: `mask_by_condition` from
`speechbrain.decoders.utils` (not vendored under src/) applied to one row
with a per-row condition: where the condition holds the row is kept,
otherwise every entry is replaced by the fill value ("mask the entire
row's log-probabilities with the negative sentinel"). -/
def maskRowByCondition (row : List ℚ) (cond : Bool) (fill : ℚ) : List ℚ :=
  if cond then row else List.replicate row.length fill

/-- Search configuration of `S2SBeamSearcher` for one `forward` call:
vocabulary size `nOut`, the decode-step bounds already computed from the
encoder length and ratios (after `change_max_decoding_length`), and the
masking/normalization options.  Immutable during the search. -/
structure Config where
  bosIndex : Nat
  eosIndex : Nat
  beamSize : Nat
  batchSize : Nat
  nOut : Nat
  minDecodeSteps : Nat
  maxDecodeSteps : Nat
  lengthNormalization : Bool
  usingEosThreshold : Bool
  eosThreshold : ℚ
  usingMaxAttnShift : Bool
  maxAttnShift : ℤ
  minusInf : ℚ

/-- The default negative sentinel `minus_inf = -1e20`. -/
def defaultMinusInf : ℚ := -(10 ^ 20)

/-- `S2SBeamSearcher._check_eos_threshold`: the end-of-sequence
log-probability is kept when it strictly exceeds
`eos_threshold * max(log_probs)` over the row. -/
def check_eos_threshold (cfg : Config) (row : List ℚ) : Bool :=
  decide (cfg.eosThreshold * rowMax row < row.getD cfg.eosIndex 0)

/-- `S2SBeamSearcher._eos_threshold_step`: when `using_eos_threshold`,
replace the end-token entry of every row by the sentinel unless the
threshold condition holds. -/
def eos_threshold_step (cfg : Config) (lp : List (List ℚ)) : List (List ℚ) :=
  if cfg.usingEosThreshold then
    lp.map (fun row =>
      row.set cfg.eosIndex
        (maskValByCondition (row.getD cfg.eosIndex 0)
          (check_eos_threshold cfg row) cfg.minusInf))
  else lp

/-- `S2SBeamSearcher._set_eos_minus_inf_step`: before `min_decode_steps`,
force the end-token column to the sentinel. -/
def set_eos_minus_inf_step (cfg : Config) (lp : List (List ℚ)) (step : Nat) :
    List (List ℚ) :=
  if step < cfg.minDecodeSteps then
    lp.map (fun row => row.set cfg.eosIndex cfg.minusInf)
  else lp

/-- `S2SBeamSearcher._check_attn_shift`: the peak of the attention row,
and whether it stayed within the allowed window
(`peak <= prev + max_attn_shift` and `peak > prev - max_attn_shift`). -/
def check_attn_shift (cfg : Config) (attnRow : List ℚ) (prevPeak : ℤ) :
    Bool × ℤ :=
  let attnPeak : ℤ := (argmaxFirst attnRow : Nat)
  let ltCond := decide (attnPeak ≤ prevPeak + cfg.maxAttnShift)
  let mtCond := decide (prevPeak - cfg.maxAttnShift < attnPeak)
  (ltCond && mtCond, attnPeak)

/-- `S2SBeamSearcher._max_attn_shift_step`: when `using_max_attn_shift`,
mask whole rows whose attention peak fails the window condition and
return the new peaks; otherwise pass everything through. -/
def max_attn_shift_step (cfg : Config) (attn : List (List ℚ))
    (prevAttnPeak : List ℤ) (lp : List (List ℚ)) :
    List (List ℚ) × List ℤ :=
  if cfg.usingMaxAttnShift then
    let conds := (List.range lp.length).map
      (fun i => check_attn_shift cfg (attn.getD i []) (prevAttnPeak.getD i 0))
    ((List.range lp.length).map
      (fun i => maskRowByCondition (lp.getD i []) (conds.getD i (false, 0)).1
        cfg.minusInf),
     (List.range lp.length).map (fun i => (conds.getD i (false, 0)).2))
  else (lp, prevAttnPeak)

/-- A live hypothesis buffer (`AlivedHypotheses`): token sequences,
per-token log-probabilities and cumulative scores, all indexed by the
flat beam index (`batch_size * beam_size` rows). -/
structure Alived where
  alivedSeq : List (List Nat)
  alivedLogProbs : List (List ℚ)
  sequenceScores : List Ext
deriving DecidableEq

/-- A completed hypothesis: the triple
`(full token sequence, per-token log-probabilities, final score)` stored
in `eos_hyps_and_log_probs_scores`. -/
structure Hyp where
  seq : List Nat
  logps : List ℚ
  score : Ext
deriving DecidableEq

/-- `beam_offset`: the first flat beam index of each batch element. -/
def beam_offset (cfg : Config) : List Nat :=
  (List.range cfg.batchSize).map (fun b => b * cfg.beamSize)

/-- The sequence scores of `init_hypotheses`: a buffer filled with minus
infinity, then `index_fill_(0, beam_offset, 0.0)`. -/
def init_sequence_scores (cfg : Config) : List Ext :=
  (beam_offset cfg).foldl (fun l i => l.set i (Ext.fin 0))
    (List.replicate (cfg.batchSize * cfg.beamSize) Ext.ninf)

/-- `S2SBeamSearcher.init_hypotheses`: empty sequences and log-prob
rows, seeded sequence scores. -/
def init_hypotheses (cfg : Config) : Alived :=
  { alivedSeq := List.replicate (cfg.batchSize * cfg.beamSize) []
    alivedLogProbs := List.replicate (cfg.batchSize * cfg.beamSize) []
    sequenceScores := init_sequence_scores cfg }

/-- `S2SBeamSearcher._check_full_beams`: every batch element's completed
pool holds exactly `beam_size` hypotheses. -/
def check_full_beams (cfg : Config) (pools : List (List Hyp)) : Bool :=
  pools.all (fun lst => lst.length == cfg.beamSize)

/-- One end-of-sequence event of
`_update_hyps_and_scores_if_eos_token`: beam `i` appends the hypothesis
`h i` to the pool of batch element `i // beam_size` unless that pool
already holds `beam_size` entries (then the event is discarded). -/
def poolsStep (cfg : Config) (h : Nat → Hyp) (ps : List (List Hyp))
    (i : Nat) : List (List Hyp) :=
  let batchId := i / cfg.beamSize
  if (ps.getD batchId []).length == cfg.beamSize then ps
  else ps.set batchId ((ps.getD batchId []) ++ [h i])

/-- The fold over the end-of-sequence events of
`_update_hyps_and_scores_if_eos_token`. -/
def poolsFold (cfg : Config) (h : Nat → Hyp) (L : List Nat)
    (ps : List (List Hyp)) : List (List Hyp) :=
  L.foldl (poolsStep cfg h) ps

/-- The hypothesis triple recorded for beam `i` when it reaches the end
token: `(alived_seq row, alived_log_probs row, score)`. -/
def eosHyp (a : Alived) (scores : List Ext) (i : Nat) : Hyp :=
  { seq := a.alivedSeq.getD i []
    logps := a.alivedLogProbs.getD i []
    score := scores.getD i Ext.ninf }

/-- `S2SBeamSearcher._update_hyps_and_scores_if_eos_token`: for every
beam whose current token is the end token (scanned in increasing flat
index order, as `torch.nonzero` lists them), append the triple
`(alived_seq row, alived_log_probs row, score)` to the pool of its batch
element unless that pool already holds `beam_size` entries.  Returns the
end-of-sequence mask and the updated pools. -/
def update_hyps_and_scores_if_eos_token (cfg : Config) (inpTokens : List Nat)
    (a : Alived) (pools : List (List Hyp)) (scores : List Ext) :
    List Bool × List (List Hyp) :=
  let isEos := inpTokens.map (fun t => t == cfg.eosIndex)
  let eosIndices := (List.range inpTokens.length).filter
    (fun i => inpTokens.getD i (cfg.eosIndex + 1) == cfg.eosIndex)
  (isEos, poolsFold cfg (eosHyp a scores) eosIndices pools)

/-- The flat candidate score matrix of one batch element `b`
(`scores.view(batch_size, -1)` row `b`, where
`scores = sequence_scores.unsqueeze(1).expand(-1, n_out) + log_probs`):
flat position `c` holds the score of extending local beam `c / n_out`
with token `c % n_out`. -/
def flat_candidate_scores (cfg : Config) (seqScores : List Ext)
    (lp : List (List ℚ)) (b : Nat) : List Ext :=
  (List.range (cfg.beamSize * cfg.nOut)).map (fun c =>
    Ext.add (seqScores.getD (b * cfg.beamSize + c / cfg.nOut) Ext.ninf)
      (Ext.fin ((lp.getD (b * cfg.beamSize + c / cfg.nOut) []).getD
        (c % cfg.nOut) 0)))

/-- One greedy pick of `torch.topk`: the first index, not yet taken, of a
maximal value among the not-yet-taken positions; `l.length` when
everything is taken (never reached in use). -/
def argmaxExcl (l : List Ext) (taken : List Nat) : Nat :=
  match (List.range l.length).filter (fun i => !(taken.contains i)) with
  | [] => l.length
  | i0 :: rest => rest.foldl (fun best j =>
      if Ext.ltb (l.getD best Ext.ninf) (l.getD j Ext.ninf) then j else best) i0

/-- Iterated greedy selection for `torch.topk`. -/
def topkGo (l : List Ext) : Nat → List Nat → List Nat
  | 0, acc => acc.reverse
  | Nat.succ k, acc => topkGo l k (argmaxExcl l acc :: acc)

/-- `torch.topk(k)` index list: the `k` positions of the largest values,
best first, ties broken by lowest position. -/
def topkIdx (l : List Ext) (k : Nat) : List Nat :=
  topkGo l k []

/-- Output of `_compute_scores_and_next_inp_tokens`: the (possibly
length-normalized) top-K scores, the per-batch candidate flat indices,
the flat predecessor indices, the chosen tokens, and the hypotheses with
updated (de-normalized) cumulative sequence scores. -/
structure StepSelection where
  scores : List Ext
  candidates : List (List Nat)
  predecessors : List Nat
  inpTokens : List Nat
  alived : Alived

/-- The candidate scores handed to `topk`: the flat matrix, divided by
`(step + 1)` when length normalization is on. -/
def normFlat (cfg : Config) (a : Alived) (lp : List (List ℚ)) (step : Nat)
    (b : Nat) : List Ext :=
  if cfg.lengthNormalization then
    (flat_candidate_scores cfg a.sequenceScores lp b).map
      (fun x => Ext.divNat x (step + 1))
  else flat_candidate_scores cfg a.sequenceScores lp b

/-- The flat candidate index selected for flat beam slot `j`
(`candidates` row `j / beam_size`, column `j % beam_size`). -/
def candAt (cfg : Config) (a : Alived) (lp : List (List ℚ)) (step : Nat)
    (j : Nat) : Nat :=
  (topkIdx (normFlat cfg a lp step (j / cfg.beamSize)) cfg.beamSize).getD
    (j % cfg.beamSize) 0

/-- `S2SBeamSearcher._compute_scores_and_next_inp_tokens`: add the
current log-probabilities to the cumulative scores, optionally divide by
`(step + 1)` for length normalization, take the per-batch top
`beam_size` candidates, derive tokens (`candidates % n_out`) and
predecessors (`candidates // n_out + beam_offset`), store the selected
scores as the new sequence scores and multiply the normalization back
(the returned `scores` stay normalized; they are what the completed pool
records). -/
def compute_scores_and_next_inp_tokens (cfg : Config) (a : Alived)
    (lp : List (List ℚ)) (step : Nat) : StepSelection :=
  let nBh := cfg.batchSize * cfg.beamSize
  let scoresSel := (List.range nBh).map
    (fun j => (normFlat cfg a lp step (j / cfg.beamSize)).getD
      (candAt cfg a lp step j) Ext.ninf)
  let inpTokens := (List.range nBh).map
    (fun j => candAt cfg a lp step j % cfg.nOut)
  let seqScores :=
    if cfg.lengthNormalization then
      scoresSel.map (fun x => Ext.mulNat x (step + 1))
    else scoresSel
  let predecessors := (List.range nBh).map
    (fun j => candAt cfg a lp step j / cfg.nOut +
      (j / cfg.beamSize) * cfg.beamSize)
  { scores := scoresSel
    candidates := (List.range cfg.batchSize).map
      (fun b => topkIdx (normFlat cfg a lp step b) cfg.beamSize)
    predecessors := predecessors
    inpTokens := inpTokens
    alived := { a with sequenceScores := seqScores } }

/-- `S2SBeamSearcher._update_sequences_and_log_probs`: gather the
sequences and log-prob rows of the predecessors and append the chosen
token and its (pre-constraint) log-probability taken from the clone of
the fused distribution. -/
def update_sequences_and_log_probs (cfg : Config) (lpClone : List (List ℚ))
    (sel : StepSelection) : Alived :=
  let nBh := cfg.batchSize * cfg.beamSize
  let beamLogProbs := (List.range nBh).map (fun j =>
    let b := j / cfg.beamSize
    let c := (sel.candidates.getD b []).getD (j % cfg.beamSize) 0
    (lpClone.getD (b * cfg.beamSize + c / cfg.nOut) []).getD (c % cfg.nOut) 0)
  { alivedSeq := (List.range nBh).map (fun j =>
      (sel.alived.alivedSeq.getD (sel.predecessors.getD j 0) []) ++
        [sel.inpTokens.getD j 0])
    alivedLogProbs := (List.range nBh).map (fun j =>
      (sel.alived.alivedLogProbs.getD (sel.predecessors.getD j 0) []) ++
        [beamLogProbs.getD j 0])
    sequenceScores := sel.alived.sequenceScores }

/-- `masked_fill_(is_eos, -inf)` on the sequence scores. -/
def maskFillNinf (scores : List Ext) (isEos : List Bool) : List Ext :=
  List.zipWith (fun s e => if e then Ext.ninf else s) scores isEos

/-- Result of one `S2SBeamSearcher.search_step` after the model call:
updated hypotheses, the chosen tokens, the updated completed pools, the
(permuted) attention peaks, the step's top-K `scores`, the constrained
log-probabilities, and the predecessor routing. -/
structure SearchStepOut where
  alived : Alived
  inpTokens : List Nat
  pools : List (List Hyp)
  prevAttnPeak : List ℤ
  scores : List Ext
  logProbs : List (List ℚ)
  predecessors : List Nat

/-- The scorer-less `S2SBeamSearcher.search_step` body after the
`forward_step` call (`attn_weight = 1.0`, `scorer = None`): clone the
fused log-probabilities, apply the attention-shift, minimum-length and
end-of-sequence-threshold constraint stages, select the top-K
continuations, permute the attention peaks by the predecessors, extend
the sequences, record end-of-sequence beams into the completed pools and
freeze their cumulative scores at minus infinity. -/
def search_step_core (cfg : Config) (rawLp attn : List (List ℚ))
    (a : Alived) (pools : List (List Hyp)) (prevAttnPeak : List ℤ)
    (step : Nat) : SearchStepOut :=
  let lpClone := rawLp
  let r1 := max_attn_shift_step cfg attn prevAttnPeak rawLp
  let lp2 := set_eos_minus_inf_step cfg r1.1 step
  let lp3 := eos_threshold_step cfg lp2
  let sel := compute_scores_and_next_inp_tokens cfg a lp3 step
  let peak2 :=
    if cfg.usingMaxAttnShift then
      sel.predecessors.map (fun p => r1.2.getD p 0)
    else r1.2
  let a2 := update_sequences_and_log_probs cfg lpClone sel
  let upd := update_hyps_and_scores_if_eos_token cfg sel.inpTokens a2 pools
    sel.scores
  let a3 := { a2 with sequenceScores := maskFillNinf a2.sequenceScores upd.1 }
  { alived := a3
    inpTokens := sel.inpTokens
    pools := upd.2
    prevAttnPeak := peak2
    scores := sel.scores
    logProbs := lp3
    predecessors := sel.predecessors }

/-- An opaque backend adapter: `forward_step` (producing the fused
log-probabilities and the attention row per beam from the step number,
the input tokens and the opaque memory) and `permute_mem`. -/
structure ModelAdapter (μ : Type) where
  stepFn : Nat → List Nat → μ → List (List ℚ) × List (List ℚ) × μ
  permuteFn : μ → List Nat → μ
  initMem : μ

/-- The per-call mutable state of `S2SBeamSearcher.forward`; `scores` is
`none` while the Python local `scores` is still unassigned. -/
structure LoopState (μ : Type) where
  alived : Alived
  inpTokens : List Nat
  pools : List (List Hyp)
  prevAttnPeak : List ℤ
  mem : μ
  scores : Option (List Ext)

/-- One full `search_step` including the model call and the memory
permutation. -/
def search_step (cfg : Config) {μ : Type} (ad : ModelAdapter μ)
    (s : LoopState μ) (step : Nat) : LoopState μ :=
  let r := ad.stepFn step s.inpTokens s.mem
  let core := search_step_core cfg r.1 r.2.1 s.alived s.pools s.prevAttnPeak
    step
  { alived := core.alived
    inpTokens := core.inpTokens
    pools := core.pools
    prevAttnPeak := core.prevAttnPeak
    mem := ad.permuteFn r.2.2 core.predecessors
    scores := some core.scores }

/-- `S2SBeamSearcher.init_beam_search_data` (the parts visible to the
search loop): beginning-of-sequence input tokens, empty completed pools,
zero attention peaks, seeded hypotheses, and the unassigned `scores`
local. -/
def init_beam_search_data (cfg : Config) {μ : Type} (ad : ModelAdapter μ) :
    LoopState μ :=
  { alived := init_hypotheses cfg
    inpTokens := List.replicate (cfg.batchSize * cfg.beamSize) cfg.bosIndex
    pools := List.replicate cfg.batchSize []
    prevAttnPeak := List.replicate (cfg.batchSize * cfg.beamSize) 0
    mem := ad.initMem
    scores := none }

/-- The decoding loop of `S2SBeamSearcher.forward`:
`for step in range(max_decode_steps)`, breaking as soon as every
completed pool is full. -/
def beam_forward_loop (cfg : Config) {μ : Type} (ad : ModelAdapter μ) :
    Nat → Nat → LoopState μ → LoopState μ
  | 0, _, s => s
  | Nat.succ fuel, step, s =>
    if check_full_beams cfg s.pools then s
    else beam_forward_loop cfg ad fuel (step + 1) (search_step cfg ad s step)

/-- `S2SBeamSearcher._fill_alived_hyps_with_eos_token`: when some pool is
not yet full, run the end-of-sequence update with every input token set
to the end token. -/
def fill_alived_hyps_with_eos_token (cfg : Config) (a : Alived)
    (pools : List (List Hyp)) (scores : List Ext) : List (List Hyp) :=
  if check_full_beams cfg pools then pools
  else (update_hyps_and_scores_if_eos_token cfg
    (List.replicate (cfg.batchSize * cfg.beamSize) cfg.eosIndex) a pools
    scores).2

/-- `S2SBeamSearcher.forward` up to the completed pools handed to the
ranking stage.  Reading the Python local `scores` when the loop body
never assigned it raises; that is the `Except.error` branch. -/
def beam_forward (cfg : Config) {μ : Type} (ad : ModelAdapter μ) :
    Except String (List (List Hyp)) :=
  let s := beam_forward_loop cfg ad cfg.maxDecodeSteps 0
    (init_beam_search_data cfg ad)
  match s.scores with
  | none =>
    Except.error "UnboundLocalError: local variable referenced before assignment"
  | some sc =>
    Except.ok (fill_alived_hyps_with_eos_token cfg s.alived s.pools sc)

/-- The mutable state of the greedy decoding loop
(`S2SGreedySearcher.forward`): current input tokens, the rows that have
already emitted the end token, and the list of stored per-step
log-probability tensors (the stored tensor is the one mutated by
`log_probs[has_ended] = float("inf")`, appended before the mutation). -/
structure GreedyState where
  inpTokens : List Nat
  hasEnded : List Bool
  logProbsLst : List (List (List Ext))
deriving DecidableEq

/-- One iteration of the greedy loop: compute the distribution, append it
to the record, take the argmax as the next input, overwrite the recorded
rows of already-ended rows with plus infinity (the in-place mutation
aliases the appended tensor), and extend `has_ended`. -/
def greedy_step (eosIndex : Nat) (raw : List (List ℚ)) (s : GreedyState) :
    GreedyState :=
  let inpTokens' := raw.map argmaxFirst
  let stored := (List.range raw.length).map (fun r =>
    if s.hasEnded.getD r false then
      List.replicate (raw.getD r []).length Ext.pinf
    else (raw.getD r []).map Ext.fin)
  let hasEnded' := (List.range raw.length).map (fun r =>
    s.hasEnded.getD r false || (inpTokens'.getD r 0 == eosIndex))
  { inpTokens := inpTokens'
    hasEnded := hasEnded'
    logProbsLst := s.logProbsLst ++ [stored] }

/-- The greedy decoding loop: `for _ in range(max_decode_steps)` with the
early `break` once every row has ended.  The model is an opaque function
of the step number and the input tokens. -/
def greedy_loop (eosIndex : Nat) (model : Nat → List Nat → List (List ℚ)) :
    Nat → Nat → GreedyState → GreedyState
  | 0, _, s => s
  | Nat.succ fuel, step, s =>
    let s' := greedy_step eosIndex (model step s.inpTokens) s
    if s'.hasEnded.all (fun b => b) then s'
    else greedy_loop eosIndex model fuel (step + 1) s'

/-- The output stage of `S2SGreedySearcher.forward` for batch row `b`:
per step, the maximal log-probability and the argmax token, then the
correction `scores[mask] = 0`, `predictions[mask] = eos` where `mask`
marks the plus-infinity scores of previously-ended rows. -/
def greedy_scores_preds (eosIndex : Nat) (lst : List (List (List Ext)))
    (b : Nat) : List Ext × List Nat :=
  let sc := lst.map (fun stepRows => extRowMax (stepRows.getD b []))
  let pr := lst.map (fun stepRows => extArgmaxFirst (stepRows.getD b []))
  (sc.map (fun s => if s == Ext.pinf then Ext.fin 0 else s),
   (List.range pr.length).map (fun t =>
     if sc.getD t Ext.ninf == Ext.pinf then eosIndex else pr.getD t 0))

/-- The scorer weights read by the `S2SBeamSearcher` constructor
(`scorer.weights["length"]`, `scorer.weights["ctc"]`) together with the
blank index of the ctc scorer (`all_scorers["ctc"].blank_index`). -/
structure ScorerCfg where
  lengthWeight : ℚ
  ctcWeight : ℚ
  ctcBlankIndex : ℤ

/-- The weights set up by the `S2SBeamSearcher` constructor. -/
structure SearcherInitResult where
  attnWeight : ℚ
  ctcWeight : ℚ
deriving DecidableEq

/-- The validation performed by `S2SBeamSearcher.__init__` when a scorer
is supplied: length normalization is incompatible with a positive length
reward, and with a positive ctc weight the blank, bos and eos indices
must be three distinct values (`len({bos, eos, blank}) < 3` raises). -/
def s2s_beam_searcher_init (bosIndex eosIndex : ℤ)
    (lengthNormalization : Bool) (scorer : Option ScorerCfg) :
    Except String SearcherInitResult :=
  match scorer with
  | none => Except.ok { attnWeight := 1, ctcWeight := 0 }
  | some s =>
    if lengthNormalization && decide (0 < s.lengthWeight) then
      Except.error "Length normalization is not compatible with length rewarding."
    else if 0 < s.ctcWeight then
      if ({bosIndex, eosIndex, s.ctcBlankIndex} : Finset ℤ).card < 3 then
        Except.error "Set blank, eos and bos to different indexes for joint ATT/CTC or CTC decoding"
      else Except.ok { attnWeight := 1 - s.ctcWeight, ctcWeight := s.ctcWeight }
    else Except.ok { attnWeight := 1, ctcWeight := 0 }

/-- Whether a construction attempt raised. -/
def initRaises (r : Except String SearcherInitResult) : Bool :=
  match r with
  | Except.error _ => true
  | Except.ok _ => false

/-- A small concrete configuration used by concrete instantiations:
batch 1, beam 2, vocabulary 3, end token 0, all constraint stages on,
default sentinel. -/
def cfgW : Config :=
  { bosIndex := 2
    eosIndex := 0
    beamSize := 2
    batchSize := 1
    nOut := 3
    minDecodeSteps := 1
    maxDecodeSteps := 2
    lengthNormalization := true
    usingEosThreshold := true
    eosThreshold := 3 / 2
    usingMaxAttnShift := true
    maxAttnShift := 2
    minusInf := defaultMinusInf }

/-- A concrete fused-log-probability tensor for `cfgW` (two beams, three
tokens); the end token (index 0) carries the best log-probability. -/
def rawW : List (List ℚ) := [[-1, -2, -3], [-1, -2, -3]]

/-- A concrete attention tensor for `cfgW` (peaks at position 0). -/
def attnW : List (List ℚ) := [[1], [1]]

/-- Empty completed pools for `cfgW` (batch size 1). -/
def poolsW : List (List Hyp) := [[]]

/-- Zero previous attention peaks for `cfgW`. -/
def peakW : List ℤ := [0, 0]

/-- `cfgW` with a computed maximum of zero decode steps (as when
`int(encoder_length * max_decode_ratio) == 0`). -/
def cfgZero : Config :=
  { cfgW with maxDecodeSteps := 0 }

/-- A trivial opaque backend adapter over a unit memory. -/
def trivialAdapter : ModelAdapter Unit :=
  { stepFn := fun _ _ m => ([], [], m)
    permuteFn := fun m _ => m
    initMem := () }

/-- A concrete greedy model over a two-row batch and two-token
vocabulary (end token 0): row 0 argmaxes to the end token at step 0 and
to token 1 afterwards; row 1 never ends. -/
def modelC8 : Nat → List Nat → List (List ℚ) :=
  fun step _ => if step == 0 then [[1, 0], [0, 1]] else [[0, 1], [0, 1]]

/-- The initial greedy state for `modelC8` (beginning-of-sequence token
1). -/
def greedyInitC8 : GreedyState :=
  { inpTokens := [1, 1]
    hasEnded := [false, false]
    logProbsLst := [] }

/-! ### Helper lemmas -/

theorem getD_range_map {α : Type} (f : Nat → α) (n i : Nat) (d : α)
    (h : i < n) : ((List.range n).map f).getD i d = f i := by
  rw [List.getD_eq_getElem _ _ (by simpa using h)]
  simp

theorem getD_set_self {α : Type} (l : List α) (i : Nat) (v d : α)
    (h : i < l.length) : (l.set i v).getD i d = v := by
  rw [List.getD_eq_getElem _ _ (by simpa using h)]
  simp [List.getElem_set]

theorem getD_set_ne {α : Type} (l : List α) (i j : Nat) (v d : α)
    (h : i ≠ j) : (l.set i v).getD j d = l.getD j d := by
  by_cases hj : j < l.length
  · rw [List.getD_eq_getElem _ _ (by simpa using hj),
      List.getD_eq_getElem _ _ hj]
    simp [List.getElem_set, h]
  · rw [List.getD_eq_default _ _ (by simpa using Nat.le_of_not_lt hj),
      List.getD_eq_default _ _ (Nat.le_of_not_lt hj)]

theorem getD_map_of_default {α β : Type} (f : α → β) (l : List α) (n : Nat)
    (d : α) (e : β) (h : f d = e) : (l.map f).getD n e = f (l.getD n d) := by
  rw [← h]
  exact List.getD_map l d f

theorem getD_replicate' {α : Type} (n i : Nat) (v d : α) (h : i < n) :
    (List.replicate n v).getD i d = v := by
  rw [List.getD_eq_getElem _ _ (by simpa using h)]
  simp

theorem length_foldl_set {α : Type} (L : List Nat) (v : α) (acc : List α) :
    (L.foldl (fun l j => l.set j v) acc).length = acc.length := by
  induction L generalizing acc with
  | nil => rfl
  | cons j L ih => simpa using ih (acc.set j v)

theorem foldl_set_getD_notmem {α : Type} (L : List Nat) (v d : α)
    (acc : List α) (i : Nat) (h : i ∉ L) :
    (L.foldl (fun l j => l.set j v) acc).getD i d = acc.getD i d := by
  induction L generalizing acc with
  | nil => rfl
  | cons j L ih =>
    have hj : j ≠ i := fun hc => h (by simp [hc])
    have hrest : i ∉ L := fun hc => h (by simp [hc])
    calc (L.foldl (fun l j => l.set j v) (acc.set j v)).getD i d
        = (acc.set j v).getD i d := ih (acc.set j v) hrest
      _ = acc.getD i d := getD_set_ne acc j i v d hj

theorem foldl_set_getD_stable {α : Type} (L : List Nat) (v d : α)
    (acc : List α) (i : Nat) (h : acc.getD i d = v) :
    (L.foldl (fun l j => l.set j v) acc).getD i d = v := by
  induction L generalizing acc with
  | nil => exact h
  | cons j L ih =>
    refine ih (acc.set j v) ?_
    by_cases hj : j = i
    · subst hj
      by_cases hi : j < acc.length
      · exact getD_set_self acc j v d hi
      · rw [List.set_eq_of_length_le (Nat.le_of_not_lt hi)]
        exact h
    · rw [getD_set_ne acc j i v d hj]
      exact h

theorem foldl_set_getD_mem {α : Type} (L : List Nat) (v d : α)
    (acc : List α) (i : Nat) (hi : i < acc.length) (h : i ∈ L) :
    (L.foldl (fun l j => l.set j v) acc).getD i d = v := by
  induction L generalizing acc with
  | nil => simp at h
  | cons j L ih =>
    by_cases hji : j = i
    · subst hji
      exact foldl_set_getD_stable L v d (acc.set j v) j
        (getD_set_self acc j v d hi)
    · have : i ∈ L := by
        rcases List.mem_cons.mp h with hc | hc
        · exact absurd hc.symm hji
        · exact hc
      exact ih (acc.set j v) (by simpa using hi) this

theorem card_triple_lt_three_iff (a b c : ℤ) :
    ({a, b, c} : Finset ℤ).card < 3 ↔ ¬(a ≠ b ∧ a ≠ c ∧ b ≠ c) := by
  constructor
  · intro h hne
    obtain ⟨h1, h2, h3⟩ := hne
    have hcard : ({a, b, c} : Finset ℤ).card = 3 := by
      rw [Finset.card_insert_of_not_mem (by simp [h1, h2]),
        Finset.card_insert_of_not_mem (by simp [h3]), Finset.card_singleton]
    omega
  · intro h
    have hcases : a = b ∨ a = c ∨ b = c := by
      by_contra hc
      push_neg at hc
      exact h ⟨hc.1, hc.2.1, hc.2.2⟩
    have hle2 : ({a, b, c} : Finset ℤ).card ≤ 2 := by
      rcases hcases with h1 | h1 | h1
      · have heq : ({a, b, c} : Finset ℤ) = {b, c} :=
          Finset.insert_eq_self.mpr (by simp [h1])
        rw [heq]
        exact le_trans (Finset.card_insert_le _ _) (by simp)
      · have heq : ({a, b, c} : Finset ℤ) = {b, c} :=
          Finset.insert_eq_self.mpr (by simp [h1])
        rw [heq]
        exact le_trans (Finset.card_insert_le _ _) (by simp)
      · have heq : ({a, b, c} : Finset ℤ) = {a, b} := by
          subst h1
          exact congrArg (insert a) (Finset.insert_eq_self.mpr (by simp))
        rw [heq]
        exact le_trans (Finset.card_insert_le _ _) (by simp)
    omega

/-- The default value of `List.getD` on `List.replicate` of the same
value is the replicated value, in or out of range. -/
theorem getD_replicate_self {α : Type} (n i : Nat) (v : α) :
    (List.replicate n v).getD i v = v := by
  by_cases h : i < n
  · exact getD_replicate' n i v v h
  · rw [List.getD_eq_default _ _ (by simpa using Nat.le_of_not_lt h)]

/-! ### C4: minimum decode length masks the end token -/

/-- C4: at every beam-search step with `step < min_decode_steps`, the
constraint stage sets the end-token column of every row to the negative
sentinel `minus_inf`, leaving all other entries unchanged; for
`step >= min_decode_steps` the stage leaves the log-probabilities
unchanged. -/
theorem c4_min_length_eos_mask (cfg : Config) (lp : List (List ℚ))
    (step : Nat) :
    (step < cfg.minDecodeSteps →
      ∀ i, i < lp.length → cfg.eosIndex < (lp.getD i []).length →
        ((set_eos_minus_inf_step cfg lp step).getD i []).getD cfg.eosIndex 0 =
          cfg.minusInf ∧
        ∀ v, v ≠ cfg.eosIndex →
          ((set_eos_minus_inf_step cfg lp step).getD i []).getD v 0 =
            (lp.getD i []).getD v 0) ∧
    (cfg.minDecodeSteps ≤ step → set_eos_minus_inf_step cfg lp step = lp) := by
  constructor
  · intro hstep i hi heos
    have hrow : (set_eos_minus_inf_step cfg lp step).getD i [] =
        (lp.getD i []).set cfg.eosIndex cfg.minusInf := by
      rw [show set_eos_minus_inf_step cfg lp step =
          lp.map (fun row => row.set cfg.eosIndex cfg.minusInf) by
        simp [set_eos_minus_inf_step, hstep]]
      exact getD_map_of_default _ lp i [] [] rfl
    constructor
    · rw [hrow]
      exact getD_set_self _ _ _ _ heos
    · intro v hv
      rw [hrow]
      exact getD_set_ne _ _ _ _ _ (Ne.symm hv)
  · intro hstep
    simp [set_eos_minus_inf_step, Nat.not_lt.mpr hstep]

/-- Witness for C4 at a concrete input. -/
theorem c4_min_length_eos_mask_witness :
    (0 < cfgW.minDecodeSteps) ∧ (0 < ([[(1 : ℚ), 2, 3]] : List (List ℚ)).length) ∧
    (cfgW.eosIndex < (([[(1 : ℚ), 2, 3]] : List (List ℚ)).getD 0 []).length) ∧
    (((set_eos_minus_inf_step cfgW [[(1 : ℚ), 2, 3]] 0).getD 0 []).getD
        cfgW.eosIndex 0 = cfgW.minusInf ∧
      ∀ v, v ≠ cfgW.eosIndex →
        ((set_eos_minus_inf_step cfgW [[(1 : ℚ), 2, 3]] 0).getD 0 []).getD v 0 =
          (([[(1 : ℚ), 2, 3]] : List (List ℚ)).getD 0 []).getD v 0) :=
  ⟨by decide, by decide, by decide,
    (c4_min_length_eos_mask cfgW [[(1 : ℚ), 2, 3]] 0).1 (by decide) 0
      (by decide) (by decide)⟩

/-! ### C5: end-of-sequence threshold -/

/-- C5: with `using_eos_threshold` enabled, the end-token
log-probability of a row is kept exactly when it strictly exceeds
`eos_threshold` times the row maximum, is replaced by the negative
sentinel otherwise, and no other entry of the row changes. -/
theorem c5_eos_threshold (cfg : Config) (lp : List (List ℚ)) (i : Nat)
    (hthr : cfg.usingEosThreshold = true) (hi : i < lp.length)
    (heos : cfg.eosIndex < (lp.getD i []).length) :
    (cfg.eosThreshold * rowMax (lp.getD i []) <
        (lp.getD i []).getD cfg.eosIndex 0 →
      ((eos_threshold_step cfg lp).getD i []).getD cfg.eosIndex 0 =
        (lp.getD i []).getD cfg.eosIndex 0) ∧
    ((lp.getD i []).getD cfg.eosIndex 0 ≤
        cfg.eosThreshold * rowMax (lp.getD i []) →
      ((eos_threshold_step cfg lp).getD i []).getD cfg.eosIndex 0 =
        cfg.minusInf) ∧
    (∀ v, v ≠ cfg.eosIndex →
      ((eos_threshold_step cfg lp).getD i []).getD v 0 =
        (lp.getD i []).getD v 0) := by
  have hrow : (eos_threshold_step cfg lp).getD i [] =
      (lp.getD i []).set cfg.eosIndex
        (maskValByCondition ((lp.getD i []).getD cfg.eosIndex 0)
          (check_eos_threshold cfg (lp.getD i [])) cfg.minusInf) := by
    rw [show eos_threshold_step cfg lp =
        lp.map (fun row => row.set cfg.eosIndex
          (maskValByCondition (row.getD cfg.eosIndex 0)
            (check_eos_threshold cfg row) cfg.minusInf)) by
      simp [eos_threshold_step, hthr]]
    exact getD_map_of_default _ lp i [] [] rfl
  refine ⟨?_, ?_, ?_⟩
  · intro hkeep
    have hc : check_eos_threshold cfg (lp.getD i []) = true := by
      simp only [check_eos_threshold]
      exact decide_eq_true hkeep
    rw [hrow, getD_set_self _ _ _ _ heos]
    simp only [maskValByCondition]
    rw [hc]
    simp
  · intro hmask
    have hc : check_eos_threshold cfg (lp.getD i []) = false := by
      simp only [check_eos_threshold]
      exact decide_eq_false (not_lt.mpr hmask)
    rw [hrow, getD_set_self _ _ _ _ heos]
    simp only [maskValByCondition]
    rw [hc]
    simp
  · intro v hv
    rw [hrow]
    exact getD_set_ne _ _ _ _ _ (Ne.symm hv)

/-- Witness for C5 at a concrete input (end token masked: the end-token
log-probability 1 does not exceed `3/2 * 3`). -/
theorem c5_eos_threshold_witness :
    (cfgW.usingEosThreshold = true) ∧
    (0 < ([[(1 : ℚ), 2, 3]] : List (List ℚ)).length) ∧
    (cfgW.eosIndex < (([[(1 : ℚ), 2, 3]] : List (List ℚ)).getD 0 []).length) ∧
    ((([[(1 : ℚ), 2, 3]] : List (List ℚ)).getD 0 []).getD cfgW.eosIndex 0 ≤
        cfgW.eosThreshold * rowMax (([[(1 : ℚ), 2, 3]] : List (List ℚ)).getD 0 []) →
      ((eos_threshold_step cfgW [[(1 : ℚ), 2, 3]]).getD 0 []).getD
        cfgW.eosIndex 0 = cfgW.minusInf) :=
  ⟨by decide, by decide, by decide,
    (c5_eos_threshold cfgW [[(1 : ℚ), 2, 3]] 0 (by decide) (by decide)
      (by decide)).2.1⟩

/-! ### C6: attention-shift window (corrected at the lower boundary) -/

/-- C6 (amended): with `using_max_attn_shift` enabled, a row is left
unchanged exactly when its attention peak satisfies
`peak <= prev + max_attn_shift` and `peak > prev - max_attn_shift`;
otherwise — in particular also for a downward move of exactly
`max_attn_shift` — the whole row is replaced by the negative sentinel.
The new peak buffer holds the argmax of the attention row. -/
theorem c6_attn_shift_window (cfg : Config) (attn : List (List ℚ))
    (prevAttnPeak : List ℤ) (lp : List (List ℚ)) (i : Nat)
    (hshift : cfg.usingMaxAttnShift = true) (hi : i < lp.length) :
    (((argmaxFirst (attn.getD i []) : ℤ) ≤
          prevAttnPeak.getD i 0 + cfg.maxAttnShift ∧
        prevAttnPeak.getD i 0 - cfg.maxAttnShift <
          (argmaxFirst (attn.getD i []) : ℤ)) →
      ((max_attn_shift_step cfg attn prevAttnPeak lp).1).getD i [] =
        lp.getD i []) ∧
    (¬((argmaxFirst (attn.getD i []) : ℤ) ≤
          prevAttnPeak.getD i 0 + cfg.maxAttnShift ∧
        prevAttnPeak.getD i 0 - cfg.maxAttnShift <
          (argmaxFirst (attn.getD i []) : ℤ)) →
      ((max_attn_shift_step cfg attn prevAttnPeak lp).1).getD i [] =
        List.replicate (lp.getD i []).length cfg.minusInf) ∧
    ((max_attn_shift_step cfg attn prevAttnPeak lp).2).getD i 0 =
      (argmaxFirst (attn.getD i []) : ℤ) := by
  have hstep : max_attn_shift_step cfg attn prevAttnPeak lp =
      ((List.range lp.length).map (fun j =>
        maskRowByCondition (lp.getD j [])
          (check_attn_shift cfg (attn.getD j []) (prevAttnPeak.getD j 0)).1
          cfg.minusInf),
       (List.range lp.length).map (fun j =>
        (check_attn_shift cfg (attn.getD j []) (prevAttnPeak.getD j 0)).2)) := by
    simp only [max_attn_shift_step, hshift, if_true]
    refine congrArg₂ Prod.mk (List.map_congr_left ?_) (List.map_congr_left ?_)
    · intro j hj
      rw [getD_range_map _ lp.length j (false, 0) (List.mem_range.mp hj)]
    · intro j hj
      rw [getD_range_map _ lp.length j (false, 0) (List.mem_range.mp hj)]
  have hrow : ((max_attn_shift_step cfg attn prevAttnPeak lp).1).getD i [] =
      maskRowByCondition (lp.getD i [])
        (check_attn_shift cfg (attn.getD i []) (prevAttnPeak.getD i 0)).1
        cfg.minusInf := by
    rw [hstep]
    exact getD_range_map _ lp.length i [] hi
  have hpk : ((max_attn_shift_step cfg attn prevAttnPeak lp).2).getD i 0 =
      (check_attn_shift cfg (attn.getD i []) (prevAttnPeak.getD i 0)).2 := by
    rw [hstep]
    exact getD_range_map _ lp.length i 0 hi
  refine ⟨?_, ?_, ?_⟩
  · intro hin
    have hc : (check_attn_shift cfg (attn.getD i [])
        (prevAttnPeak.getD i 0)).1 = true := by
      simp only [check_attn_shift, Bool.and_eq_true, decide_eq_true_eq]
      exact hin
    rw [hrow]
    simp only [maskRowByCondition]
    rw [hc]
    simp
  · intro hout
    have hc : (check_attn_shift cfg (attn.getD i [])
        (prevAttnPeak.getD i 0)).1 = false := by
      simp only [check_attn_shift, Bool.and_eq_false_iff]
      rcases Decidable.not_and_iff_or_not.mp hout with h | h
      · exact Or.inl (decide_eq_false h)
      · exact Or.inr (decide_eq_false h)
    rw [hrow]
    simp only [maskRowByCondition]
    rw [hc]
    simp
  · rw [hpk]
    simp [check_attn_shift]

/-- Witness for the amended C6 at a concrete input: a peak move from 0
to 1 with window 2 keeps the row, and the peak buffer is updated. -/
theorem c6_attn_shift_window_witness :
    (cfgW.usingMaxAttnShift = true) ∧
    (0 < ([[(1 : ℚ), 2, 3]] : List (List ℚ)).length) ∧
    (((argmaxFirst ((([[(1 : ℚ), 9, 1]] : List (List ℚ))).getD 0 []) : ℤ) ≤
        (([(0 : ℤ)]).getD 0 0) + cfgW.maxAttnShift ∧
      (([(0 : ℤ)]).getD 0 0) - cfgW.maxAttnShift <
        (argmaxFirst ((([[(1 : ℚ), 9, 1]] : List (List ℚ))).getD 0 []) : ℤ)) →
      ((max_attn_shift_step cfgW [[(1 : ℚ), 9, 1]] [(0 : ℤ)]
          [[(1 : ℚ), 2, 3]]).1).getD 0 [] =
        (([[(1 : ℚ), 2, 3]] : List (List ℚ))).getD 0 []) :=
  ⟨by decide, by decide,
    (c6_attn_shift_window cfgW [[(1 : ℚ), 9, 1]] [(0 : ℤ)] [[(1 : ℚ), 2, 3]] 0
      (by decide) (by decide)).1⟩

/-- Counterexample to C6 as stated: with `max_attn_shift = 2` a downward
peak move of exactly 2 (from 2 to 0) is "at most max_attn_shift in
either direction", yet the row is replaced by the sentinel, not left
unchanged. -/
theorem c6_attn_shift_window_counterexample :
    ((argmaxFirst [(9 : ℚ), 1, 1] : ℤ) - 2).natAbs ≤ 2 ∧
    cfgW.maxAttnShift = 2 ∧ cfgW.usingMaxAttnShift = true ∧
    ((max_attn_shift_step cfgW [[(9 : ℚ), 1, 1]] [(2 : ℤ)]
        [[(1 : ℚ), 2, 3]]).1).getD 0 [] =
      List.replicate 3 cfgW.minusInf ∧
    ((max_attn_shift_step cfgW [[(9 : ℚ), 1, 1]] [(2 : ℤ)]
        [[(1 : ℚ), 2, 3]]).1).getD 0 [] ≠ [(1 : ℚ), 2, 3] := by
  refine ⟨by decide, by decide, by decide, by decide, by decide⟩

/-! ### C7: beam seeding -/

/-- C7: at initialization, for every batch element `b` the sequence
score of flat beam `b * beam_size` is 0 and the scores of its other
`beam_size - 1` beams are minus infinity. -/
theorem c7_seed_scores (cfg : Config) (hbeam : 0 < cfg.beamSize) (b : Nat)
    (hb : b < cfg.batchSize) :
    (init_hypotheses cfg).sequenceScores.getD (b * cfg.beamSize) Ext.ninf =
      Ext.fin 0 ∧
    ∀ j, 0 < j → j < cfg.beamSize →
      (init_hypotheses cfg).sequenceScores.getD (b * cfg.beamSize + j)
        Ext.ninf = Ext.ninf := by
  have hmul : (b + 1) * cfg.beamSize ≤ cfg.batchSize * cfg.beamSize :=
    Nat.mul_le_mul_right _ (Nat.succ_le_of_lt hb)
  constructor
  · have hmem : b * cfg.beamSize ∈ beam_offset cfg := by
      simp only [beam_offset, List.mem_map]
      exact ⟨b, List.mem_range.mpr hb, rfl⟩
    have hlt : b * cfg.beamSize <
        (List.replicate (cfg.batchSize * cfg.beamSize) Ext.ninf).length := by
      simp only [List.length_replicate]
      have : b * cfg.beamSize + cfg.beamSize = (b + 1) * cfg.beamSize := by
        ring
      omega
    exact foldl_set_getD_mem (beam_offset cfg) (Ext.fin 0) Ext.ninf _ _ hlt hmem
  · intro j hj hjlt
    have hnot : b * cfg.beamSize + j ∉ beam_offset cfg := by
      intro hmem
      simp only [beam_offset, List.mem_map] at hmem
      obtain ⟨b', _, heq⟩ := hmem
      have hmod : (b * cfg.beamSize + j) % cfg.beamSize = 0 := by
        rw [← heq]
        exact Nat.mul_mod_left b' cfg.beamSize
      rw [Nat.mul_comm b cfg.beamSize, Nat.mul_add_mod,
        Nat.mod_eq_of_lt hjlt] at hmod
      omega
    rw [show (init_hypotheses cfg).sequenceScores = init_sequence_scores cfg
      from rfl]
    rw [init_sequence_scores,
      foldl_set_getD_notmem (beam_offset cfg) (Ext.fin 0) Ext.ninf _ _ hnot]
    exact getD_replicate_self _ _ _

/-- Witness for C7 at the concrete configuration (beam offset 0 seeded,
beam 1 frozen). -/
theorem c7_seed_scores_witness :
    (0 < cfgW.beamSize) ∧ (0 < cfgW.batchSize) ∧
    ((init_hypotheses cfgW).sequenceScores.getD (0 * cfgW.beamSize) Ext.ninf =
        Ext.fin 0 ∧
      ∀ j, 0 < j → j < cfgW.beamSize →
        (init_hypotheses cfgW).sequenceScores.getD (0 * cfgW.beamSize + j)
          Ext.ninf = Ext.ninf) :=
  ⟨by decide, by decide, c7_seed_scores cfgW (by decide) 0 (by decide)⟩

/-! ### C9: construction-time validation -/

/-- C9: with a scorer supplied, construction raises exactly when length
normalization is combined with a strictly positive length-reward weight,
or the ctc weight is strictly positive and bos, eos and the ctc blank
index are not pairwise distinct; without a scorer (and with a scorer
when neither condition holds) construction succeeds. -/
theorem c9_construction_checks :
    (∀ (bos eos : ℤ) (ln : Bool) (s : ScorerCfg),
      initRaises (s2s_beam_searcher_init bos eos ln (some s)) = true ↔
        (ln = true ∧ 0 < s.lengthWeight) ∨
          (0 < s.ctcWeight ∧
            ¬(bos ≠ eos ∧ bos ≠ s.ctcBlankIndex ∧ eos ≠ s.ctcBlankIndex))) ∧
    ∀ (bos eos : ℤ) (ln : Bool),
      initRaises (s2s_beam_searcher_init bos eos ln none) = false := by
  constructor
  · intro bos eos ln s
    simp only [s2s_beam_searcher_init]
    split_ifs with hA hB hC
    · simp only [initRaises, true_iff]
      rw [Bool.and_eq_true, decide_eq_true_eq] at hA
      exact Or.inl hA
    · simp only [initRaises, true_iff]
      exact Or.inr ⟨hB, (card_triple_lt_three_iff bos eos s.ctcBlankIndex).mp hC⟩
    · simp only [initRaises, Bool.false_eq_true, false_iff]
      rintro (h | h)
      · rw [Bool.and_eq_true, decide_eq_true_eq] at hA
        exact hA h
      · exact h.2 (not_not.mp
          ((card_triple_lt_three_iff bos eos s.ctcBlankIndex).not.mp hC))
    · simp only [initRaises, Bool.false_eq_true, false_iff]
      rintro (h | h)
      · rw [Bool.and_eq_true, decide_eq_true_eq] at hA
        exact hA h
      · exact hB h.1
  · intro bos eos ln
    rfl

/-! ### Completed-pool lemmas -/

theorem length_poolsStep (cfg : Config) (h : Nat → Hyp)
    (ps : List (List Hyp)) (i : Nat) :
    (poolsStep cfg h ps i).length = ps.length := by
  simp only [poolsStep]
  split
  · rfl
  · simp

theorem length_poolsFold (cfg : Config) (h : Nat → Hyp) (L : List Nat)
    (ps : List (List Hyp)) : (poolsFold cfg h L ps).length = ps.length := by
  induction L generalizing ps with
  | nil => rfl
  | cons j L ih =>
    simp only [poolsFold, List.foldl_cons]
    rw [show List.foldl (poolsStep cfg h) (poolsStep cfg h ps j) L =
      poolsFold cfg h L (poolsStep cfg h ps j) from rfl]
    rw [ih (poolsStep cfg h ps j), length_poolsStep]

theorem poolsStep_getD_other (cfg : Config) (h : Nat → Hyp)
    (ps : List (List Hyp)) (i b : Nat) (hb : b ≠ i / cfg.beamSize) :
    (poolsStep cfg h ps i).getD b [] = ps.getD b [] := by
  simp only [poolsStep]
  split
  · rfl
  · exact getD_set_ne ps _ b _ [] (Ne.symm hb)

theorem poolsStep_full (cfg : Config) (h : Nat → Hyp)
    (ps : List (List Hyp)) (i : Nat)
    (hful : (ps.getD (i / cfg.beamSize) []).length = cfg.beamSize) :
    poolsStep cfg h ps i = ps := by
  simp only [poolsStep]
  rw [if_pos (beq_iff_eq.mpr hful)]

theorem poolsStep_cap (cfg : Config) (h : Nat → Hyp)
    (ps : List (List Hyp)) (i : Nat)
    (hcap : ∀ b, (ps.getD b []).length ≤ cfg.beamSize) (b : Nat) :
    ((poolsStep cfg h ps i).getD b []).length ≤ cfg.beamSize := by
  simp only [poolsStep]
  split
  · exact hcap b
  · rename_i hne
    by_cases hb : b = i / cfg.beamSize
    · by_cases hlen : i / cfg.beamSize < ps.length
      · rw [hb, getD_set_self ps _ _ [] hlen]
        have h1 : (ps.getD (i / cfg.beamSize) []).length ≠ cfg.beamSize :=
          fun hc => hne (beq_iff_eq.mpr hc)
        have h2 := hcap (i / cfg.beamSize)
        simp only [List.length_append, List.length_cons, List.length_nil]
        omega
      · rw [List.set_eq_of_length_le (Nat.le_of_not_lt hlen)]
        exact hcap b
    · rw [getD_set_ne ps _ b _ [] (Ne.symm hb)]
      exact hcap b

theorem poolsFold_cap (cfg : Config) (h : Nat → Hyp) (L : List Nat)
    (ps : List (List Hyp))
    (hcap : ∀ b, (ps.getD b []).length ≤ cfg.beamSize) (b : Nat) :
    ((poolsFold cfg h L ps).getD b []).length ≤ cfg.beamSize := by
  induction L generalizing ps with
  | nil => exact hcap b
  | cons j L ih =>
    simp only [poolsFold, List.foldl_cons]
    exact ih (poolsStep cfg h ps j) (poolsStep_cap cfg h ps j hcap)

theorem poolsFold_full_frozen (cfg : Config) (h : Nat → Hyp) (L : List Nat)
    (ps : List (List Hyp)) (b : Nat)
    (hful : (ps.getD b []).length = cfg.beamSize) :
    (poolsFold cfg h L ps).getD b [] = ps.getD b [] := by
  induction L generalizing ps with
  | nil => rfl
  | cons j L ih =>
    simp only [poolsFold, List.foldl_cons]
    by_cases hb : b = j / cfg.beamSize
    · subst hb
      rw [show List.foldl (poolsStep cfg h) (poolsStep cfg h ps j) L =
        poolsFold cfg h L (poolsStep cfg h ps j) from rfl]
      rw [poolsStep_full cfg h ps j hful]
      exact ih ps hful
    · rw [show List.foldl (poolsStep cfg h) (poolsStep cfg h ps j) L =
        poolsFold cfg h L (poolsStep cfg h ps j) from rfl]
      have hother := poolsStep_getD_other cfg h ps j b hb
      rw [ih (poolsStep cfg h ps j) (by rw [hother]; exact hful), hother]

theorem poolsFold_mono (cfg : Config) (h : Nat → Hyp) (L : List Nat)
    (ps : List (List Hyp)) (b : Nat) (x : Hyp)
    (hx : x ∈ ps.getD b []) :
    x ∈ (poolsFold cfg h L ps).getD b [] := by
  induction L generalizing ps with
  | nil => exact hx
  | cons j L ih =>
    simp only [poolsFold, List.foldl_cons]
    refine ih (poolsStep cfg h ps j) ?_
    by_cases hb : b = j / cfg.beamSize
    · rw [hb] at hx
      rw [hb]
      simp only [poolsStep]
      split
      · exact hx
      · by_cases hlen : j / cfg.beamSize < ps.length
        · rw [getD_set_self ps _ _ [] hlen]
          exact List.mem_append_left _ hx
        · rw [List.set_eq_of_length_le (Nat.le_of_not_lt hlen)]
          exact hx
    · rw [poolsStep_getD_other cfg h ps j b hb]
      exact hx

theorem poolsFold_processed (cfg : Config) (h : Nat → Hyp) (L : List Nat)
    (ps : List (List Hyp)) (i : Nat)
    (hcap : ∀ b, (ps.getD b []).length ≤ cfg.beamSize)
    (hb : i / cfg.beamSize < ps.length) (hi : i ∈ L) :
    h i ∈ (poolsFold cfg h L ps).getD (i / cfg.beamSize) [] ∨
      ((poolsFold cfg h L ps).getD (i / cfg.beamSize) []).length =
        cfg.beamSize := by
  induction L generalizing ps with
  | nil => simp at hi
  | cons j L ih =>
    simp only [poolsFold, List.foldl_cons]
    rw [show List.foldl (poolsStep cfg h) (poolsStep cfg h ps j) L =
      poolsFold cfg h L (poolsStep cfg h ps j) from rfl]
    by_cases hji : j = i
    · subst hji
      by_cases hful : (ps.getD (j / cfg.beamSize) []).length = cfg.beamSize
      · right
        rw [poolsStep_full cfg h ps j hful]
        rw [poolsFold_full_frozen cfg h L ps (j / cfg.beamSize) hful]
        exact hful
      · left
        refine poolsFold_mono cfg h L (poolsStep cfg h ps j)
          (j / cfg.beamSize) (h j) ?_
        simp only [poolsStep]
        rw [if_neg (by simpa using hful)]
        rw [getD_set_self ps _ _ [] hb]
        exact List.mem_append_right _ (List.mem_singleton_self _)
    · have hiL : i ∈ L := by
        rcases List.mem_cons.mp hi with hc | hc
        · exact absurd hc.symm hji
        · exact hc
      exact ih (poolsStep cfg h ps j) (poolsStep_cap cfg h ps j hcap)
        (by rw [length_poolsStep]; exact hb) hiL

/-! ### C1: completed pools never exceed capacity -/

/-- C1: the end-of-sequence update keeps every batch element's completed
pool at no more than `beam_size` hypotheses and leaves a full pool
unchanged (further end-of-sequence events for it are discarded); hence
the pools returned by a whole `forward` call respect the capacity. -/
theorem c1_completed_pool_capacity :
    (∀ (cfg : Config) (inpTokens : List Nat) (a : Alived)
        (pools : List (List Hyp)) (scores : List Ext),
      (∀ b, (pools.getD b []).length ≤ cfg.beamSize) →
        (∀ b, (((update_hyps_and_scores_if_eos_token cfg inpTokens a pools
            scores).2).getD b []).length ≤ cfg.beamSize) ∧
        (∀ b, (pools.getD b []).length = cfg.beamSize →
          ((update_hyps_and_scores_if_eos_token cfg inpTokens a pools
            scores).2).getD b [] = pools.getD b [])) ∧
    (∀ (cfg : Config) (μ : Type) (ad : ModelAdapter μ)
        (out : List (List Hyp)),
      beam_forward cfg ad = Except.ok out →
      ∀ b, (out.getD b []).length ≤ cfg.beamSize) := by
  have hupd : ∀ (cfg : Config) (inpTokens : List Nat) (a : Alived)
      (pools : List (List Hyp)) (scores : List Ext),
      (update_hyps_and_scores_if_eos_token cfg inpTokens a pools scores).2 =
        poolsFold cfg (eosHyp a scores)
          ((List.range inpTokens.length).filter
            (fun i => inpTokens.getD i (cfg.eosIndex + 1) == cfg.eosIndex))
          pools := fun _ _ _ _ _ => rfl
  constructor
  · intro cfg inpTokens a pools scores hcap
    constructor
    · intro b
      rw [hupd]
      exact poolsFold_cap cfg _ _ pools hcap b
    · intro b hful
      rw [hupd]
      exact poolsFold_full_frozen cfg _ _ pools b hful
  · intro cfg μ ad out hout b
    have hloop : ∀ (fuel step : Nat) (s : LoopState μ),
        (∀ b, (s.pools.getD b []).length ≤ cfg.beamSize) →
        ∀ b, (((beam_forward_loop cfg ad fuel step s).pools.getD b []).length ≤
          cfg.beamSize) := by
      intro fuel
      induction fuel with
      | zero => intro step s hcap b; exact hcap b
      | succ fuel ih =>
        intro step s hcap b
        simp only [beam_forward_loop]
        split
        · exact hcap b
        · refine ih (step + 1) (search_step cfg ad s step) ?_ b
          intro b'
          have hpools : (search_step cfg ad s step).pools =
              (update_hyps_and_scores_if_eos_token cfg
                (compute_scores_and_next_inp_tokens cfg s.alived
                  (eos_threshold_step cfg
                    (set_eos_minus_inf_step cfg
                      (max_attn_shift_step cfg
                        (ad.stepFn step s.inpTokens s.mem).2.1 s.prevAttnPeak
                        (ad.stepFn step s.inpTokens s.mem).1).1 step))
                  step).inpTokens
                (update_sequences_and_log_probs cfg
                  (ad.stepFn step s.inpTokens s.mem).1
                  (compute_scores_and_next_inp_tokens cfg s.alived
                    (eos_threshold_step cfg
                      (set_eos_minus_inf_step cfg
                        (max_attn_shift_step cfg
                          (ad.stepFn step s.inpTokens s.mem).2.1 s.prevAttnPeak
                          (ad.stepFn step s.inpTokens s.mem).1).1 step))
                    step))
                s.pools
                (compute_scores_and_next_inp_tokens cfg s.alived
                  (eos_threshold_step cfg
                    (set_eos_minus_inf_step cfg
                      (max_attn_shift_step cfg
                        (ad.stepFn step s.inpTokens s.mem).2.1 s.prevAttnPeak
                        (ad.stepFn step s.inpTokens s.mem).1).1 step))
                  step).scores).2 := rfl
          rw [hpools, hupd]
          exact poolsFold_cap cfg _ _ s.pools hcap b'
    have hfin := hloop cfg.maxDecodeSteps 0 (init_beam_search_data cfg ad)
      (by
        intro b'
        simp only [init_beam_search_data]
        by_cases hb : b' < cfg.batchSize
        · rw [getD_replicate' cfg.batchSize b' [] [] hb]
          simp
        · rw [List.getD_eq_default _ _ (by simpa using Nat.le_of_not_lt hb)]
          simp)
    revert hout
    simp only [beam_forward]
    split
    · intro hout
      cases hout
    · rename_i sc hsc
      intro hout
      have : out = fill_alived_hyps_with_eos_token cfg
          (beam_forward_loop cfg ad cfg.maxDecodeSteps 0
            (init_beam_search_data cfg ad)).alived
          (beam_forward_loop cfg ad cfg.maxDecodeSteps 0
            (init_beam_search_data cfg ad)).pools sc := by
        cases hout
        rfl
      rw [this]
      simp only [fill_alived_hyps_with_eos_token]
      split
      · exact hfin b
      · rw [hupd]
        exact poolsFold_cap cfg _ _ _ hfin b

/-- Witness for C1 at a concrete input: a full pool of one batch element
discards a new end-of-sequence event. -/
theorem c1_completed_pool_capacity_witness :
    (∀ b, ((([[{ seq := [0], logps := [(1 : ℚ)], score := Ext.fin 1 },
        { seq := [0, 0], logps := [(1 : ℚ), 1], score := Ext.fin 2 }]] :
          List (List Hyp)).getD b []).length ≤ cfgW.beamSize)) ∧
    (∀ b, (((update_hyps_and_scores_if_eos_token cfgW [0, 0]
        (init_hypotheses cfgW)
        [[{ seq := [0], logps := [(1 : ℚ)], score := Ext.fin 1 },
          { seq := [0, 0], logps := [(1 : ℚ), 1], score := Ext.fin 2 }]]
        [Ext.fin 3, Ext.fin 4]).2).getD b []).length ≤ cfgW.beamSize) ∧
    (∀ b, (([[{ seq := [0], logps := [(1 : ℚ)], score := Ext.fin 1 },
        { seq := [0, 0], logps := [(1 : ℚ), 1], score := Ext.fin 2 }]] :
          List (List Hyp)).getD b []).length = cfgW.beamSize →
      ((update_hyps_and_scores_if_eos_token cfgW [0, 0]
        (init_hypotheses cfgW)
        [[{ seq := [0], logps := [(1 : ℚ)], score := Ext.fin 1 },
          { seq := [0, 0], logps := [(1 : ℚ), 1], score := Ext.fin 2 }]]
        [Ext.fin 3, Ext.fin 4]).2).getD b [] =
        ([[{ seq := [0], logps := [(1 : ℚ)], score := Ext.fin 1 },
          { seq := [0, 0], logps := [(1 : ℚ), 1], score := Ext.fin 2 }]] :
            List (List Hyp)).getD b []) := by
  refine ⟨?_, ?_⟩
  · intro b
    by_cases hb : b = 0
    · subst hb; decide
    · rw [List.getD_eq_default]
      · simp
      · simp
        omega
  · exact (c1_completed_pool_capacity.1 cfgW [0, 0] (init_hypotheses cfgW)
      [[{ seq := [0], logps := [(1 : ℚ)], score := Ext.fin 1 },
        { seq := [0, 0], logps := [(1 : ℚ), 1], score := Ext.fin 2 }]]
      [Ext.fin 3, Ext.fin 4]
      (by
        intro b
        by_cases hb : b = 0
        · subst hb; decide
        · rw [List.getD_eq_default]
          · simp
          · simp
            omega))

/-! ### Selection-stage length lemmas -/

theorem compute_inpTokens_length (cfg : Config) (a : Alived)
    (lp : List (List ℚ)) (step : Nat) :
    (compute_scores_and_next_inp_tokens cfg a lp step).inpTokens.length =
      cfg.batchSize * cfg.beamSize := by
  simp [compute_scores_and_next_inp_tokens]

theorem compute_scores_length (cfg : Config) (a : Alived)
    (lp : List (List ℚ)) (step : Nat) :
    (compute_scores_and_next_inp_tokens cfg a lp step).scores.length =
      cfg.batchSize * cfg.beamSize := by
  simp [compute_scores_and_next_inp_tokens]

theorem compute_seqScores_length (cfg : Config) (a : Alived)
    (lp : List (List ℚ)) (step : Nat) :
    (compute_scores_and_next_inp_tokens cfg a lp
        step).alived.sequenceScores.length =
      cfg.batchSize * cfg.beamSize := by
  simp only [compute_scores_and_next_inp_tokens]
  split
  · simp
  · simp

/-! ### C2: end-of-sequence beams are recorded and frozen -/

/-- C2: after a beam-search step, every beam whose chosen token is the
end token has its cumulative sequence score frozen at minus infinity,
and its triple (full token sequence, per-token log-probabilities, final
score) is in its batch element's completed pool unless that pool is full
(it held `beam_size` entries when the event was processed, and still
does). -/
theorem c2_eos_freeze_and_record (cfg : Config) (rawLp attn : List (List ℚ))
    (a : Alived) (pools : List (List Hyp)) (prevAttnPeak : List ℤ)
    (step : Nat) (i : Nat)
    (hcap : ∀ b, (pools.getD b []).length ≤ cfg.beamSize)
    (hpools : i / cfg.beamSize < pools.length)
    (hi : i < cfg.batchSize * cfg.beamSize)
    (heos : (search_step_core cfg rawLp attn a pools prevAttnPeak
      step).inpTokens.getD i 0 = cfg.eosIndex) :
    (search_step_core cfg rawLp attn a pools prevAttnPeak
        step).alived.sequenceScores.getD i Ext.ninf = Ext.ninf ∧
    ({ seq := (search_step_core cfg rawLp attn a pools prevAttnPeak
          step).alived.alivedSeq.getD i []
       logps := (search_step_core cfg rawLp attn a pools prevAttnPeak
          step).alived.alivedLogProbs.getD i []
       score := (search_step_core cfg rawLp attn a pools prevAttnPeak
          step).scores.getD i Ext.ninf } ∈
        (search_step_core cfg rawLp attn a pools prevAttnPeak
          step).pools.getD (i / cfg.beamSize) [] ∨
      ((search_step_core cfg rawLp attn a pools prevAttnPeak
        step).pools.getD (i / cfg.beamSize) []).length = cfg.beamSize) := by
  have hsel : (search_step_core cfg rawLp attn a pools prevAttnPeak
      step).inpTokens =
      (compute_scores_and_next_inp_tokens cfg a
        (eos_threshold_step cfg
          (set_eos_minus_inf_step cfg
            (max_attn_shift_step cfg attn prevAttnPeak rawLp).1 step))
        step).inpTokens := rfl
  have htokl : (compute_scores_and_next_inp_tokens cfg a
      (eos_threshold_step cfg
        (set_eos_minus_inf_step cfg
          (max_attn_shift_step cfg attn prevAttnPeak rawLp).1 step))
      step).inpTokens.length = cfg.batchSize * cfg.beamSize :=
    compute_inpTokens_length cfg a _ step
  have hbound : i < (compute_scores_and_next_inp_tokens cfg a
      (eos_threshold_step cfg
        (set_eos_minus_inf_step cfg
          (max_attn_shift_step cfg attn prevAttnPeak rawLp).1 step))
      step).inpTokens.length := by
    rw [htokl]
    exact hi
  have hitok : (compute_scores_and_next_inp_tokens cfg a
      (eos_threshold_step cfg
        (set_eos_minus_inf_step cfg
          (max_attn_shift_step cfg attn prevAttnPeak rawLp).1 step))
      step).inpTokens.getD i 0 = cfg.eosIndex := by
    rw [hsel] at heos
    exact heos
  constructor
  · show (maskFillNinf
        (update_sequences_and_log_probs cfg rawLp
          (compute_scores_and_next_inp_tokens cfg a
            (eos_threshold_step cfg
              (set_eos_minus_inf_step cfg
                (max_attn_shift_step cfg attn prevAttnPeak rawLp).1 step))
            step)).sequenceScores
        ((compute_scores_and_next_inp_tokens cfg a
          (eos_threshold_step cfg
            (set_eos_minus_inf_step cfg
              (max_attn_shift_step cfg attn prevAttnPeak rawLp).1 step))
          step).inpTokens.map (fun t => t == cfg.eosIndex))).getD i Ext.ninf =
      Ext.ninf
    have hscl : (update_sequences_and_log_probs cfg rawLp
        (compute_scores_and_next_inp_tokens cfg a
          (eos_threshold_step cfg
            (set_eos_minus_inf_step cfg
              (max_attn_shift_step cfg attn prevAttnPeak rawLp).1 step))
          step)).sequenceScores.length = cfg.batchSize * cfg.beamSize :=
      compute_seqScores_length cfg a _ step
    rw [List.getD_eq_getElem _ _ (by
      simp only [maskFillNinf, List.length_zipWith, List.length_map, htokl,
        hscl]
      simpa using hi)]
    simp only [maskFillNinf]
    rw [List.getElem_zipWith]
    rw [List.getElem_map]
    rw [← List.getD_eq_getElem _ 0 hbound]
    rw [hitok]
    simp
  · have hmem : i ∈ (List.range
        ((compute_scores_and_next_inp_tokens cfg a
          (eos_threshold_step cfg
            (set_eos_minus_inf_step cfg
              (max_attn_shift_step cfg attn prevAttnPeak rawLp).1 step))
          step).inpTokens.length)).filter
        (fun j => (compute_scores_and_next_inp_tokens cfg a
          (eos_threshold_step cfg
            (set_eos_minus_inf_step cfg
              (max_attn_shift_step cfg attn prevAttnPeak rawLp).1 step))
          step).inpTokens.getD j (cfg.eosIndex + 1) == cfg.eosIndex) := by
      refine List.mem_filter.mpr ⟨List.mem_range.mpr (by rw [htokl]; exact hi),
        ?_⟩
      rw [List.getD_eq_getElem _ _ hbound, ← List.getD_eq_getElem _ 0 hbound]
      rw [hitok]
      simp
    exact poolsFold_processed cfg _ _ pools i hcap hpools hmem

/-- Witness for C2 at a concrete input: with the seeded scores, step 1
picks the end token for flat beam 0, which is recorded and frozen. -/
theorem c2_eos_freeze_and_record_witness :
    (0 / cfgW.beamSize < poolsW.length) ∧
    (0 < cfgW.batchSize * cfgW.beamSize) ∧
    ((search_step_core cfgW rawW attnW (init_hypotheses cfgW) poolsW peakW
      1).inpTokens.getD 0 0 = cfgW.eosIndex) ∧
    ((search_step_core cfgW rawW attnW (init_hypotheses cfgW) poolsW peakW
        1).alived.sequenceScores.getD 0 Ext.ninf = Ext.ninf ∧
      ({ seq := (search_step_core cfgW rawW attnW (init_hypotheses cfgW)
            poolsW peakW 1).alived.alivedSeq.getD 0 []
         logps := (search_step_core cfgW rawW attnW (init_hypotheses cfgW)
            poolsW peakW 1).alived.alivedLogProbs.getD 0 []
         score := (search_step_core cfgW rawW attnW (init_hypotheses cfgW)
            poolsW peakW 1).scores.getD 0 Ext.ninf } ∈
          (search_step_core cfgW rawW attnW (init_hypotheses cfgW) poolsW
            peakW 1).pools.getD (0 / cfgW.beamSize) [] ∨
        ((search_step_core cfgW rawW attnW (init_hypotheses cfgW) poolsW
          peakW 1).pools.getD (0 / cfgW.beamSize) []).length =
          cfgW.beamSize)) :=
  ⟨by decide, by decide, by decide,
    c2_eos_freeze_and_record cfgW rawW attnW (init_hypotheses cfgW) poolsW
      peakW 1 0
      (by
        intro b
        match b with
        | 0 => decide
        | Nat.succ n =>
          rw [List.getD_eq_default]
          · decide
          · simp [poolsW]
      )
      (by decide) (by decide) (by decide)⟩

/-! ### Top-K selection lemmas -/

theorem mulNat_divNat_cancel (x : Ext) (n : Nat) (h : 0 < n) :
    Ext.mulNat (Ext.divNat x n) n = x := by
  cases x with
  | ninf => rfl
  | pinf => rfl
  | fin a =>
    simp only [Ext.divNat, Ext.mulNat]
    congr 1
    rw [div_mul_cancel₀]
    exact Nat.cast_ne_zero.mpr (Nat.pos_iff_ne_zero.mp h)

theorem divNat_mulNat_cancel (x : Ext) (n : Nat) (h : 0 < n) :
    Ext.divNat (Ext.mulNat x n) n = x := by
  cases x with
  | ninf => rfl
  | pinf => rfl
  | fin a =>
    simp only [Ext.divNat, Ext.mulNat]
    congr 1
    rw [mul_div_cancel_right₀]
    exact Nat.cast_ne_zero.mpr (Nat.pos_iff_ne_zero.mp h)

theorem topkGo_length (l : List Ext) (k : Nat) (acc : List Nat) :
    (topkGo l k acc).length = k + acc.length := by
  induction k generalizing acc with
  | zero => simp [topkGo]
  | succ k ih =>
    simp only [topkGo]
    rw [ih]
    simp only [List.length_cons]
    omega

theorem topkIdx_length (l : List Ext) (k : Nat) :
    (topkIdx l k).length = k := by
  rw [topkIdx, topkGo_length]
  rfl

theorem foldl_choice_mem (P : Nat → Nat → Bool) (rest : List Nat) (b : Nat) :
    rest.foldl (fun best j => if P best j then j else best) b = b ∨
      rest.foldl (fun best j => if P best j then j else best) b ∈ rest := by
  induction rest generalizing b with
  | nil => exact Or.inl rfl
  | cons j rest ih =>
    simp only [List.foldl_cons]
    rcases ih (if P b j then j else b) with h | h
    · rw [h]
      by_cases hp : P b j
      · right
        simp [hp]
      · left
        simp [hp]
    · right
      exact List.mem_cons_of_mem j h

theorem argmaxExcl_spec (l : List Ext) (taken : List Nat)
    (hlen : taken.length < l.length) :
    argmaxExcl l taken < l.length ∧ argmaxExcl l taken ∉ taken := by
  have havail : (List.range l.length).filter
      (fun i => !(taken.contains i)) ≠ [] := by
    intro hemp
    have hsub : List.range l.length ⊆ taken := by
      intro i hi
      have hni := List.filter_eq_nil_iff.mp hemp i hi
      simp only [List.contains_eq_any_beq] at hni
      simp only [Bool.not_eq_true', Bool.not_eq_false, List.any_eq_true,
        beq_iff_eq] at hni
      obtain ⟨x, hx, hxe⟩ := hni
      rw [hxe]
      exact hx
    have hle := (List.subperm_of_subset (List.nodup_range l.length)
      hsub).length_le
    rw [List.length_range] at hle
    omega
  have hres : argmaxExcl l taken ∈ (List.range l.length).filter
      (fun i => !(taken.contains i)) := by
    cases hfe : (List.range l.length).filter (fun i => !(taken.contains i))
      with
    | nil => exact absurd hfe havail
    | cons i0 rest =>
      simp only [argmaxExcl, hfe]
      rcases foldl_choice_mem
        (fun best j => Ext.ltb (l.getD best Ext.ninf) (l.getD j Ext.ninf))
        rest i0 with h | h
      · rw [h]
        exact List.mem_cons_self i0 rest
      · exact List.mem_cons_of_mem i0 h
  have hmf := List.mem_filter.mp hres
  refine ⟨List.mem_range.mp hmf.1, ?_⟩
  intro hmem
  have hcon := hmf.2
  simp only [List.contains_eq_any_beq, Bool.not_eq_true', List.any_eq_false,
    beq_iff_eq] at hcon
  exact hcon _ hmem rfl

theorem topkGo_lt (l : List Ext) (k : Nat) (acc : List Nat)
    (hb : ∀ i ∈ acc, i < l.length)
    (hle : acc.length + k ≤ l.length) :
    ∀ i ∈ topkGo l k acc, i < l.length := by
  induction k generalizing acc with
  | zero =>
    intro i hi
    simp only [topkGo] at hi
    exact hb i (List.mem_reverse.mp hi)
  | succ k ih =>
    intro i hi
    simp only [topkGo] at hi
    have hspec := argmaxExcl_spec l acc (by omega)
    refine ih (argmaxExcl l acc :: acc) ?_ (by simp; omega) i hi
    intro j hj
    rcases List.mem_cons.mp hj with h | h
    · rw [h]
      exact hspec.1
    · exact hb j h

theorem topkIdx_lt (l : List Ext) (k : Nat) (hk : k ≤ l.length) :
    ∀ i ∈ topkIdx l k, i < l.length :=
  topkGo_lt l k [] (by simp) (by simpa using hk)

theorem getD_mem_of_lt {α : Type} (l : List α) (i : Nat) (d : α)
    (h : i < l.length) : l.getD i d ∈ l := by
  rw [List.getD_eq_getElem _ _ h]
  exact List.getElem_mem h

theorem length_normFlat (cfg : Config) (a : Alived) (lp : List (List ℚ))
    (step : Nat) (b : Nat) :
    (normFlat cfg a lp step b).length = cfg.beamSize * cfg.nOut := by
  simp only [normFlat]
  split
  · simp [flat_candidate_scores]
  · simp [flat_candidate_scores]

theorem candAt_lt (cfg : Config) (a : Alived) (lp : List (List ℚ))
    (step : Nat) (j : Nat) (hout : 0 < cfg.nOut) (hbeam : 0 < cfg.beamSize) :
    candAt cfg a lp step j < cfg.beamSize * cfg.nOut := by
  have hk : cfg.beamSize ≤ (normFlat cfg a lp step (j / cfg.beamSize)).length := by
    rw [length_normFlat]
    exact Nat.le_mul_of_pos_right cfg.beamSize hout
  have hmem : candAt cfg a lp step j ∈
      topkIdx (normFlat cfg a lp step (j / cfg.beamSize)) cfg.beamSize := by
    refine getD_mem_of_lt _ _ _ ?_
    rw [topkIdx_length]
    exact Nat.mod_lt j hbeam
  have := topkIdx_lt (normFlat cfg a lp step (j / cfg.beamSize)) cfg.beamSize
    hk _ hmem
  rw [length_normFlat] at this
  exact this

/-! ### C3: length normalization affects ranking only -/

/-- C3: for every step and every surviving beam slot `j`, the stored
cumulative sequence score equals the predecessor's cumulative score plus
the chosen token's fused log-probability, in exact arithmetic — whether
length normalization is on or off (the identical equation holds for
every configuration); and the score used for the top-K ranking is the
stored score divided by `(step + 1)` exactly when length normalization
is on. -/
theorem c3_length_normalization_ranking_only (cfg : Config) (a : Alived)
    (lp : List (List ℚ)) (step : Nat) (j : Nat)
    (hout : 0 < cfg.nOut) (hj : j < cfg.batchSize * cfg.beamSize) :
    (compute_scores_and_next_inp_tokens cfg a lp
        step).alived.sequenceScores.getD j Ext.ninf =
      Ext.add
        (a.sequenceScores.getD
          ((compute_scores_and_next_inp_tokens cfg a lp
            step).predecessors.getD j 0) Ext.ninf)
        (Ext.fin ((lp.getD
          ((compute_scores_and_next_inp_tokens cfg a lp
            step).predecessors.getD j 0) []).getD
          ((compute_scores_and_next_inp_tokens cfg a lp
            step).inpTokens.getD j 0) 0)) ∧
    (compute_scores_and_next_inp_tokens cfg a lp step).scores.getD j
        Ext.ninf =
      (if cfg.lengthNormalization then
        Ext.divNat
          ((compute_scores_and_next_inp_tokens cfg a lp
            step).alived.sequenceScores.getD j Ext.ninf) (step + 1)
      else
        (compute_scores_and_next_inp_tokens cfg a lp
          step).alived.sequenceScores.getD j Ext.ninf) := by
  have hbeam : 0 < cfg.beamSize := by
    rcases Nat.eq_zero_or_pos cfg.beamSize with h | h
    · rw [h, Nat.mul_zero] at hj
      exact absurd hj (Nat.not_lt_zero j)
    · exact h
  have hc := candAt_lt cfg a lp step j hout hbeam
  have hpred : (compute_scores_and_next_inp_tokens cfg a lp
      step).predecessors.getD j 0 =
      candAt cfg a lp step j / cfg.nOut + (j / cfg.beamSize) * cfg.beamSize :=
    getD_range_map _ _ j 0 hj
  have htok : (compute_scores_and_next_inp_tokens cfg a lp
      step).inpTokens.getD j 0 = candAt cfg a lp step j % cfg.nOut :=
    getD_range_map _ _ j 0 hj
  have hscore : (compute_scores_and_next_inp_tokens cfg a lp
      step).scores.getD j Ext.ninf =
      (normFlat cfg a lp step (j / cfg.beamSize)).getD
        (candAt cfg a lp step j) Ext.ninf :=
    getD_range_map _ _ j Ext.ninf hj
  have hflat : (flat_candidate_scores cfg a.sequenceScores lp
      (j / cfg.beamSize)).getD (candAt cfg a lp step j) Ext.ninf =
      Ext.add
        (a.sequenceScores.getD
          ((j / cfg.beamSize) * cfg.beamSize +
            candAt cfg a lp step j / cfg.nOut) Ext.ninf)
        (Ext.fin ((lp.getD
          ((j / cfg.beamSize) * cfg.beamSize +
            candAt cfg a lp step j / cfg.nOut) []).getD
          (candAt cfg a lp step j % cfg.nOut) 0)) := by
    simp only [flat_candidate_scores]
    exact getD_range_map _ _ _ Ext.ninf hc
  have hseqs : (compute_scores_and_next_inp_tokens cfg a lp
      step).alived.sequenceScores =
      (if cfg.lengthNormalization then
        (compute_scores_and_next_inp_tokens cfg a lp step).scores.map
          (fun x => Ext.mulNat x (step + 1))
      else (compute_scores_and_next_inp_tokens cfg a lp step).scores) := rfl
  by_cases hnorm : cfg.lengthNormalization = true
  · have hnf : normFlat cfg a lp step (j / cfg.beamSize) =
        (flat_candidate_scores cfg a.sequenceScores lp
          (j / cfg.beamSize)).map (fun x => Ext.divNat x (step + 1)) := by
      simp only [normFlat, hnorm, if_true]
    have hstored : (compute_scores_and_next_inp_tokens cfg a lp
        step).alived.sequenceScores.getD j Ext.ninf =
        Ext.mulNat ((compute_scores_and_next_inp_tokens cfg a lp
          step).scores.getD j Ext.ninf) (step + 1) := by
      rw [hseqs, if_pos hnorm]
      exact getD_map_of_default _ _ j Ext.ninf Ext.ninf rfl
    constructor
    · rw [hstored, hscore, hnf,
        getD_map_of_default _ _ _ Ext.ninf Ext.ninf rfl,
        mulNat_divNat_cancel _ _ (Nat.succ_pos step), hflat, hpred, htok,
        Nat.add_comm ((j / cfg.beamSize) * cfg.beamSize)]
    · rw [if_pos hnorm, hstored,
        divNat_mulNat_cancel _ _ (Nat.succ_pos step)]
  · have hnorm' : cfg.lengthNormalization = false :=
      Bool.not_eq_true _ ▸ Bool.eq_false_iff.mpr (fun hc => hnorm hc)
    have hnf : normFlat cfg a lp step (j / cfg.beamSize) =
        flat_candidate_scores cfg a.sequenceScores lp (j / cfg.beamSize) := by
      simp only [normFlat, hnorm', Bool.false_eq_true, if_false]
    have hstored : (compute_scores_and_next_inp_tokens cfg a lp
        step).alived.sequenceScores.getD j Ext.ninf =
        (compute_scores_and_next_inp_tokens cfg a lp step).scores.getD j
          Ext.ninf := by
      rw [hseqs, if_neg (by rw [hnorm']; exact Bool.false_ne_true)]
    constructor
    · rw [hstored, hscore, hnf, hflat, hpred, htok,
        Nat.add_comm ((j / cfg.beamSize) * cfg.beamSize)]
    · rw [if_neg (by rw [hnorm']; exact Bool.false_ne_true), hstored]

/-- Witness for C3 at a concrete input (normalization on, step 1, flat
beam slot 0 of `cfgW`). -/
theorem c3_length_normalization_ranking_only_witness :
    (0 < cfgW.nOut) ∧ (0 < cfgW.batchSize * cfgW.beamSize) ∧
    ((compute_scores_and_next_inp_tokens cfgW (init_hypotheses cfgW) rawW
        1).alived.sequenceScores.getD 0 Ext.ninf =
      Ext.add
        ((init_hypotheses cfgW).sequenceScores.getD
          ((compute_scores_and_next_inp_tokens cfgW (init_hypotheses cfgW)
            rawW 1).predecessors.getD 0 0) Ext.ninf)
        (Ext.fin ((rawW.getD
          ((compute_scores_and_next_inp_tokens cfgW (init_hypotheses cfgW)
            rawW 1).predecessors.getD 0 0) []).getD
          ((compute_scores_and_next_inp_tokens cfgW (init_hypotheses cfgW)
            rawW 1).inpTokens.getD 0 0) 0)) ∧
      (compute_scores_and_next_inp_tokens cfgW (init_hypotheses cfgW) rawW
          1).scores.getD 0 Ext.ninf =
        (if cfgW.lengthNormalization then
          Ext.divNat
            ((compute_scores_and_next_inp_tokens cfgW (init_hypotheses cfgW)
              rawW 1).alived.sequenceScores.getD 0 Ext.ninf) 2
        else
          (compute_scores_and_next_inp_tokens cfgW (init_hypotheses cfgW)
            rawW 1).alived.sequenceScores.getD 0 Ext.ninf)) :=
  ⟨by decide, by decide,
    c3_length_normalization_ranking_only cfgW (init_hypotheses cfgW) rawW 1 0
      (by decide) (by decide)⟩

/-- Witness for C9 at a concrete input: length normalization together
with a positive length-reward weight raises. -/
theorem c9_construction_checks_witness :
    initRaises (s2s_beam_searcher_init 0 0 true
        (some { lengthWeight := 1, ctcWeight := 0, ctcBlankIndex := 2 })) =
        true ↔
      (true = true ∧ (0 : ℚ) < 1) ∨
        ((0 : ℚ) < 0 ∧ ¬((0 : ℤ) ≠ 0 ∧ (0 : ℤ) ≠ 2 ∧ (0 : ℤ) ≠ 2)) :=
  c9_construction_checks.1 0 0 true
    { lengthWeight := 1, ctcWeight := 0, ctcBlankIndex := 2 }

/-! ### C10: zero decode steps crash forward -/

/-- C10: when the computed maximum number of decode steps is zero, the
beam-search `forward` raises instead of returning forced-completion
results: the loop body never runs, so the post-loop fill stage reads the
`scores` local that was never assigned. -/
theorem c10_zero_max_decode_steps_raises (cfg : Config) (μ : Type)
    (ad : ModelAdapter μ) (hbeam : 0 < cfg.beamSize)
    (hzero : cfg.maxDecodeSteps = 0) :
    beam_forward cfg ad =
      Except.error
        "UnboundLocalError: local variable referenced before assignment" := by
  simp only [beam_forward, hzero, beam_forward_loop, init_beam_search_data]

/-- Witness for C10 at the concrete zero-step configuration. -/
theorem c10_zero_max_decode_steps_raises_witness :
    (0 < cfgZero.beamSize) ∧ (cfgZero.maxDecodeSteps = 0) ∧
    beam_forward cfgZero trivialAdapter =
      Except.error
        "UnboundLocalError: local variable referenced before assignment" :=
  ⟨by decide, rfl,
    c10_zero_max_decode_steps_raises cfgZero Unit trivialAdapter (by decide)
      rfl⟩

/-! ### C8: greedy driver (corrected on the held input token) -/

/-- C8 (amended): at every greedy step each batch row selects the argmax
token of its current raw log-probability distribution — also a row that
has already ended, whose next input is that argmax rather than being
held at the end token; a row that ended at an earlier step has its
recorded log-probability row masked to the plus-infinity sentinel, which
the output stage later corrects to score 0 with the reported prediction
set to the end token; a row stays ended once ended; and the loop stops
as soon as every row has ended (or the step bound runs out). -/
theorem c8_greedy_driver_amended :
    (∀ (eosIndex : Nat) (raw : List (List ℚ)) (s : GreedyState) (r : Nat),
      (greedy_step eosIndex raw s).inpTokens.getD r 0 =
        argmaxFirst (raw.getD r [])) ∧
    (∀ (eosIndex : Nat) (raw : List (List ℚ)) (s : GreedyState) (r : Nat),
      r < raw.length → s.hasEnded.getD r false = true →
      ((greedy_step eosIndex raw s).logProbsLst.getD s.logProbsLst.length
        []).getD r [] = List.replicate (raw.getD r []).length Ext.pinf) ∧
    (∀ (eosIndex : Nat) (raw : List (List ℚ)) (s : GreedyState) (r : Nat),
      r < raw.length →
      (greedy_step eosIndex raw s).hasEnded.getD r false =
        (s.hasEnded.getD r false ||
          (argmaxFirst (raw.getD r []) == eosIndex))) ∧
    (∀ (eosIndex : Nat) (lst : List (List (List Ext))) (b t : Nat),
      t < lst.length →
      extRowMax ((lst.getD t []).getD b []) = Ext.pinf →
      ((greedy_scores_preds eosIndex lst b).1.getD t Ext.ninf = Ext.fin 0 ∧
       (greedy_scores_preds eosIndex lst b).2.getD t 0 = eosIndex)) ∧
    (∀ (m : Nat), extRowMax (List.replicate (m + 1) Ext.pinf) = Ext.pinf) ∧
    (∀ (eosIndex : Nat) (model : Nat → List Nat → List (List ℚ))
        (fuel step : Nat) (s : GreedyState),
      (greedy_step eosIndex (model step s.inpTokens) s).hasEnded.all
        (fun b => b) = true →
      greedy_loop eosIndex model (fuel + 1) step s =
        greedy_step eosIndex (model step s.inpTokens) s) := by
  have hinp : ∀ (eosIndex : Nat) (raw : List (List ℚ)) (s : GreedyState)
      (r : Nat), (greedy_step eosIndex raw s).inpTokens.getD r 0 =
        argmaxFirst (raw.getD r []) := by
    intro eosIndex raw s r
    exact getD_map_of_default argmaxFirst raw r [] 0 rfl
  refine ⟨hinp, ?_, ?_, ?_, ?_, ?_⟩
  · intro eosIndex raw s r hr hend
    have happ : (greedy_step eosIndex raw s).logProbsLst.getD
        s.logProbsLst.length [] =
        (List.range raw.length).map (fun j =>
          if s.hasEnded.getD j false then
            List.replicate ((raw.getD j []).length) Ext.pinf
          else (raw.getD j []).map Ext.fin) := by
      show (s.logProbsLst ++ [(List.range raw.length).map _]).getD
        s.logProbsLst.length [] = _
      rw [List.getD_append_right _ _ [] _ (Nat.le_refl _), Nat.sub_self]
      rfl
    rw [happ, getD_range_map _ raw.length r [] hr, hend]
    simp
  · intro eosIndex raw s r hr
    have : (greedy_step eosIndex raw s).hasEnded.getD r false =
        (s.hasEnded.getD r false ||
          ((greedy_step eosIndex raw s).inpTokens.getD r 0 == eosIndex)) := by
      show ((List.range raw.length).map (fun j =>
        s.hasEnded.getD j false ||
          ((raw.map argmaxFirst).getD j 0 == eosIndex))).getD r false = _
      rw [getD_range_map _ raw.length r false hr]
      rfl
    rw [this, hinp]
  · intro eosIndex lst b t ht hmax
    have hsc : (lst.map (fun stepRows =>
        extRowMax (stepRows.getD b []))).getD t Ext.ninf = Ext.pinf := by
      rw [getD_map_of_default _ lst t [] Ext.ninf rfl]
      exact hmax
    constructor
    · show ((lst.map (fun stepRows => extRowMax (stepRows.getD b []))).map
        (fun s => if s == Ext.pinf then Ext.fin 0 else s)).getD t Ext.ninf =
          Ext.fin 0
      rw [getD_map_of_default _ _ t Ext.ninf Ext.ninf rfl, hsc]
      simp
    · show ((List.range (lst.map (fun stepRows =>
        extArgmaxFirst (stepRows.getD b []))).length).map (fun u =>
          if (lst.map (fun stepRows =>
            extRowMax (stepRows.getD b []))).getD u Ext.ninf == Ext.pinf
          then eosIndex
          else (lst.map (fun stepRows =>
            extArgmaxFirst (stepRows.getD b []))).getD u 0)).getD t 0 =
        eosIndex
      rw [getD_range_map _ _ t 0 (by rw [List.length_map]; exact ht), hsc]
      simp
  · intro m
    have haux : ∀ k, (List.replicate k Ext.pinf).foldl
        (fun a b => if Ext.ltb a b then b else a) Ext.pinf = Ext.pinf := by
      intro k
      induction k with
      | zero => rfl
      | succ k ih =>
        rw [List.replicate_succ, List.foldl_cons]
        exact ih
    rw [List.replicate_succ]
    exact haux m
  · intro eosIndex model fuel step s hall
    simp only [greedy_loop]
    rw [if_pos hall]

/-- Counterexample to C8 as stated: with `modelC8`, row 0 emits the end
token at step 0 (it is marked ended after the first iteration), yet the
input token it feeds to the model at step 2 is the argmax 1 of its step-1
distribution, not the end token 0. -/
theorem c8_greedy_driver_counterexample :
    ((greedy_loop 0 modelC8 1 0 greedyInitC8).hasEnded.getD 0 false =
      true) ∧
    ((greedy_loop 0 modelC8 2 0 greedyInitC8).hasEnded.getD 0 false =
      true) ∧
    ((greedy_loop 0 modelC8 2 0 greedyInitC8).inpTokens.getD 0 0 ≠ 0) := by
  refine ⟨by decide, by decide, by decide⟩

/-- Witness for the amended C8 at a concrete input: an already-ended row
has its newly recorded log-probability row masked to plus infinity. -/
theorem c8_greedy_driver_amended_witness :
    (0 < ([[(5 : ℚ), 7], [1, 2]] : List (List ℚ)).length) ∧
    (({ inpTokens := [0, 1], hasEnded := [true, false], logProbsLst := [] } :
      GreedyState).hasEnded.getD 0 false = true) ∧
    ((greedy_step 3 [[(5 : ℚ), 7], [1, 2]]
        { inpTokens := [0, 1], hasEnded := [true, false],
          logProbsLst := [] }).logProbsLst.getD 0 []).getD 0 [] =
      List.replicate 2 Ext.pinf :=
  ⟨by decide, by decide,
    c8_greedy_driver_amended.2.1 3 [[(5 : ℚ), 7], [1, 2]]
      { inpTokens := [0, 1], hasEnded := [true, false], logProbsLst := [] } 0
      (by decide) (by decide)⟩

end Seq2Seq
